import Mathlib

/-!
Shallow embedding of `src/ports/rtubufferedport.js` (node-modbus-serial,
RTU buffered port): the frame reassembler that reconstructs modbus-RTU
request/response frames from an unframed serial byte stream.

Bytes are modelled as natural numbers, buffers as `List Nat`.  The mutable
instance fields `_buffer`, `_id`, `_cmd`, `_length`, `debug` become the
fields of `PortState`.  JS numbers occurring in `_length` arithmetic are
modelled exactly: the values involved (small integers and eighths) are
exactly representable doubles, so rational arithmetic is a faithful model,
and `parseInt` applied to such a number truncates toward zero.
Observable effects (`data` events, `debug` events, bytes handed to the
serial transport) are collected in a list of `Event`s.
-/

/-- `EXCEPTION_LENGTH` from the source. -/
def EXCEPTION_LENGTH : Nat := 5

/-- `MAX_BUFFER_LENGTH` from the source. -/
def MAX_BUFFER_LENGTH : Nat := 256

/-- Observable effects of the port: a `data` event carrying a reassembled
frame, a `debug` event record `{action: ..., data: ...}`, and bytes handed
to the underlying serial transport by `this._client.write(data)`. -/
inductive Event where
  | data (frame : List Nat)
  | debugRec (action : String) (payload : List Nat)
  | send (bytes : List Nat)
deriving DecidableEq

/-- Whether an event is a `data` event. -/
def Event.isData : Event → Bool
  | .data _ => true
  | _ => false

/-- The mutable state of an `RTUBufferedPort` instance: `_buffer`, `_id`,
`_cmd`, `_length` and the `debug` flag.  `_length` is kept as an integer
(a JS number that, on every path in the source, is an integer). -/
structure PortState where
  buffer : List Nat
  id : Nat
  cmd : Nat
  length : ℤ
  debug : Bool
deriving DecidableEq

/-- State set up by the constructor: `this._buffer = new Buffer(0)`,
`this._id = 0`, `this._cmd = 0`, `this._length = 0`, `this.debug = false`. -/
def initialState : PortState :=
  { buffer := [], id := 0, cmd := 0, length := 0, debug := false }

/-- JS `parseInt` applied to a (finite, plainly-rendered) number:
truncation toward zero. -/
def jsParseInt (x : ℚ) : ℤ := if 0 ≤ x then ⌊x⌋ else -⌊-x⌋

/-- `data.readUInt16BE(off)`: big-endian 16-bit read at byte offset `off`. -/
def readUInt16BE (data : List Nat) (off : Nat) : Nat :=
  256 * data.getD off 0 + data.getD (off + 1) 0

/-- The `switch (this._cmd)` of `RTUBufferedPort.prototype.write` that
computes the expected answer length.  Cases 1/2 compute
`3 + parseInt((length - 1) / 8 + 1) + 2` in JS number arithmetic (exact
here, see the module comment); cases 3/4 compute `3 + 2 * length + 2`;
cases 5/6/15/16 give `6 + 2`; the default gives `0`. -/
def computeLength (cmd : Nat) (data : List Nat) : ℤ :=
  if cmd = 1 ∨ cmd = 2 then
    3 + jsParseInt (((readUInt16BE data 4 : ℚ) - 1) / 8 + 1) + 2
  else if cmd = 3 ∨ cmd = 4 then
    3 + 2 * (readUInt16BE data 4 : ℤ) + 2
  else if cmd = 5 ∨ cmd = 6 ∨ cmd = 15 ∨ cmd = 16 then
    6 + 2
  else
    0

/-- `RTUBufferedPort.prototype.write`.  A request shorter than 6 bytes
returns without doing anything.  Otherwise `_id`, `_cmd` and `_length` are
updated, a `send` debug record is emitted when `debug` is set, and the
bytes are handed verbatim to the serial transport. -/
def write (s : PortState) (data : List Nat) : PortState × List Event :=
  if data.length < 6 then
    (s, [])
  else
    ({ s with
        id := data.getD 0 0
        cmd := data.getD 1 0
        length := computeLength (data.getD 1 0) data },
     (if s.debug then [Event.debugRec "send" data] else []) ++ [Event.send data])

/-- `RTUBufferedPort.prototype._emitData(start, length)`: copy
`slice(start, start + length)` out of the buffer (Node's `slice` clips to
the available bytes), emit the debug record (note the source spells the
action `'recive'`) and the `data` event, and keep only
`slice(start + length)` of the buffer. -/
def emitData (s : PortState) (start : Nat) (len : ℤ) : PortState × List Event :=
  ({ s with buffer := s.buffer.drop ((start : ℤ) + len).toNat },
   (if s.debug then [Event.debugRec "recive" ((s.buffer.drop start).take len.toNat)]
    else []) ++
     [Event.data ((s.buffer.drop start).take len.toNat)])

/-- The `slice(-MAX_BUFFER_LENGTH)` applied when the freshly appended
buffer exceeds `MAX_BUFFER_LENGTH`: keep only the trailing
`MAX_BUFFER_LENGTH` bytes. -/
def pruneBuffer (buf : List Nat) : List Nat :=
  if MAX_BUFFER_LENGTH < buf.length then
    buf.drop (buf.length - MAX_BUFFER_LENGTH)
  else
    buf

/-- The `for (var i = 0; i <= maxOffset; i++)` scan of the `onData`
handler.  `fuel` counts the remaining loop iterations (`maxOffset + 1 - i`
at entry); `bufferLength` is the length variable captured *before* the
overflow pruning, exactly as in the source.  Out-of-range reads of a Node
buffer yield `undefined`, which compares unequal (`!==`) to every number;
`getElem?`/`Option` equality models this.  Returns the `(start, length)`
pair handed to `_emitData`, or `none` when the loop ends or `break`s. -/
def scanFrom (buf : List Nat) (id cmd : Nat) (expectedLength : ℤ)
    (bufferLength : Nat) : Nat → Nat → Option (Nat × ℤ)
  | 0, _ => none
  | fuel + 1, i =>
    if buf[i]? ≠ some id then
      scanFrom buf id cmd expectedLength bufferLength fuel (i + 1)
    else if buf[i + 1]? = some cmd ∧ (i : ℤ) + expectedLength ≤ (bufferLength : ℤ) then
      some (i, expectedLength)
    else if buf[i + 1]? = some (0x80 ||| cmd) ∧ i + EXCEPTION_LENGTH ≤ bufferLength then
      some (i, (EXCEPTION_LENGTH : ℤ))
    else if buf[i + 1]? = some (0x7f &&& cmd) then
      none
    else
      scanFrom buf id cmd expectedLength bufferLength fuel (i + 1)

/-- The `onData` handler registered on the serial port: append the chunk,
return early when `expectedLength < 6` or fewer than `EXCEPTION_LENGTH`
bytes are buffered, otherwise prune to the trailing `MAX_BUFFER_LENGTH`
bytes when over the cap and scan offsets `0 .. bufferLength -
EXCEPTION_LENGTH` (the *pre-pruning* length, as in the source) for a
matching frame header, emitting at most one frame. -/
def onData (s : PortState) (chunk : List Nat) : PortState × List Event :=
  let buf := s.buffer ++ chunk
  if s.length < 6 ∨ buf.length < EXCEPTION_LENGTH then
    ({ s with buffer := buf }, [])
  else
    match scanFrom (pruneBuffer buf) s.id s.cmd s.length buf.length
        (buf.length - EXCEPTION_LENGTH + 1) 0 with
    | some (start, len) => emitData { s with buffer := pruneBuffer buf } start len
    | none => ({ s with buffer := pruneBuffer buf }, [])

/-- Deliver a sequence of inbound chunks in order, collecting all events. -/
def feedChunks (s : PortState) : List (List Nat) → PortState × List Event
  | [] => (s, [])
  | c :: rest =>
    let r := onData s c
    let r2 := feedChunks r.1 rest
    (r2.1, r.2 ++ r2.2)

/-- The command codes recognized by the `switch` in `write`. -/
def recognizedCmd (c : Nat) : Prop :=
  c = 1 ∨ c = 2 ∨ c = 3 ∨ c = 4 ∨ c = 5 ∨ c = 6 ∨ c = 15 ∨ c = 16

instance (c : Nat) : Decidable (recognizedCmd c) := by
  unfold recognizedCmd; infer_instance

/-- The JS computation `parseInt((q - 1) / 8 + 1)` of the source, evaluated
exactly: it equals the integer division `(q + 7) / 8` for every 16-bit (in
fact every natural) `q`, including `q = 0` where truncation toward zero
yields `parseInt(0.875) = 0`. -/
lemma jsParseInt_div8 (q : ℕ) :
    jsParseInt (((q : ℚ) - 1) / 8 + 1) = ((q : ℤ) + 7) / 8 := by
  have hx : ((q : ℚ) - 1) / 8 + 1 = ((q : ℚ) + 7) / 8 := by ring
  have h0 : (0 : ℚ) ≤ ((q : ℚ) + 7) / 8 := by positivity
  rw [jsParseInt, hx, if_pos h0]
  have hcast := Rat.floor_intCast_div_natCast ((q : ℤ) + 7) 8
  push_cast at hcast
  convert hcast using 2

/-- Resolve `computeLength` for command codes 1 and 2 into plain natural
division: `3 + parseInt((q - 1) / 8 + 1) + 2 = (q + 7) / 8 + 5`. -/
lemma computeLength_one_two (cmd : Nat) (data : List Nat) (h : cmd = 1 ∨ cmd = 2) :
    computeLength cmd data = (((readUInt16BE data 4 + 7) / 8 : ℕ) : ℤ) + 5 := by
  rw [computeLength, if_pos h, jsParseInt_div8]
  omega

/-- The spec-side ceiling formula agrees with natural division by 8. -/
lemma ceil_div8 (q : ℕ) : ⌈((q : ℚ) / 8)⌉ = ((q : ℤ) + 7) / 8 := by
  have h1 : ⌊(-(q : ℚ) / 8)⌋ = -(q : ℤ) / 8 := by
    have hcast := Rat.floor_intCast_div_natCast (-(q : ℤ)) 8
    push_cast at hcast
    convert hcast using 2
  have h2 : ⌈((q : ℚ) / 8)⌉ = -⌊-((q : ℚ) / 8)⌋ := by
    rw [Int.floor_neg]; ring
  rw [h2, show -((q : ℚ) / 8) = -(q : ℚ) / 8 by ring, h1]
  omega

/-- `write` never touches the stream buffer. -/
lemma write_buffer (s : PortState) (d : List Nat) : (write s d).1.buffer = s.buffer := by
  unfold write; split <;> rfl

/-- `write` never touches the debug flag. -/
lemma write_debug (s : PortState) (d : List Nat) : (write s d).1.debug = s.debug := by
  unfold write; split <;> rfl

/-- A `write` of at least 6 bytes updates `_id`, `_cmd` and `_length`. -/
lemma write_ok (s : PortState) (d : List Nat) (h : ¬ d.length < 6) :
    (write s d).1 =
      { s with id := d.getD 0 0, cmd := d.getD 1 0,
               length := computeLength (d.getD 1 0) d } := by
  rw [write, if_neg h]

/-- The receive handler only ever mutates the buffer: `_id`, `_cmd`,
`_length` and `debug` are untouched. -/
lemma onData_fields (s : PortState) (chunk : List Nat) :
    (onData s chunk).1.id = s.id ∧ (onData s chunk).1.cmd = s.cmd ∧
      (onData s chunk).1.length = s.length ∧ (onData s chunk).1.debug = s.debug := by
  unfold onData emitData
  dsimp only
  split
  · exact ⟨rfl, rfl, rfl, rfl⟩
  · split <;> exact ⟨rfl, rfl, rfl, rfl⟩

/-- A receive event either emits nothing, or emits exactly one `data`
event for some frame, preceded by its debug record when `debug` is set. -/
lemma onData_events_shape (s : PortState) (chunk : List Nat) :
    (onData s chunk).2 = [] ∨
      ∃ frame, (onData s chunk).2 =
        (if s.debug then [Event.debugRec "recive" frame] else []) ++ [Event.data frame] := by
  unfold onData emitData
  dsimp only
  split
  · exact Or.inl rfl
  · split
    · exact Or.inr ⟨_, rfl⟩
    · exact Or.inl rfl

/-- When `_length < 6` the handler appends and returns before any pruning
or scanning: no events, buffer grown by the chunk. -/
lemma onData_disabled (s : PortState) (chunk : List Nat) (h : s.length < 6) :
    onData s chunk = ({ s with buffer := s.buffer ++ chunk }, []) := by
  unfold onData
  dsimp only
  rw [if_pos (Or.inl h)]

/-- Characterization of a successful scan: the emitted `(start, length)`
pair comes from a header match at `start` in the (possibly pruned) buffer,
either a normal match of length `_length` or an exception match of length
`EXCEPTION_LENGTH`, with the availability check done against the
pre-pruning `bufferLength`. -/
lemma scanFrom_eq_some (buf : List Nat) (id cmd : Nat) (L : ℤ) (n : Nat)
    (fuel i start : Nat) (len : ℤ)
    (h : scanFrom buf id cmd L n fuel i = some (start, len)) :
    buf[start]? = some id ∧
      ((buf[start + 1]? = some cmd ∧ (start : ℤ) + L ≤ (n : ℤ) ∧ len = L) ∨
       (buf[start + 1]? = some (0x80 ||| cmd) ∧ start + EXCEPTION_LENGTH ≤ n ∧
         len = (EXCEPTION_LENGTH : ℤ))) := by
  induction fuel generalizing i with
  | zero => simp [scanFrom] at h
  | succ fuel ih =>
    rw [scanFrom] at h
    split at h
    · exact ih _ h
    · rename_i hskip
      rw [not_not] at hskip
      split at h
      · rename_i hnorm
        rw [Option.some.injEq, Prod.mk.injEq] at h
        obtain ⟨rfl, rfl⟩ := h
        exact ⟨hskip, Or.inl ⟨hnorm.1, hnorm.2, rfl⟩⟩
      · split at h
        · rename_i hexc
          rw [Option.some.injEq, Prod.mk.injEq] at h
          obtain ⟨rfl, rfl⟩ := h
          exact ⟨hskip, Or.inr ⟨hexc.1, hexc.2, rfl⟩⟩
        · split at h
          · exact absurd h (by simp)
          · exact ih _ h

/-- When the first two buffered bytes already equal the expected header
but fewer than `_length` bytes are available, the scan `break`s at offset
0 without emitting (the partial-frame guard), provided the expected
command has no `0x80` bit (so the exception branch cannot fire). -/
lemma scanFrom_break (buf : List Nat) (id cmd : Nat) (L : ℤ) (n : Nat) (fuel : Nat)
    (h0 : buf[0]? = some id) (h1 : buf[1]? = some cmd)
    (hn : (n : ℤ) < L)
    (h80 : (0x80 ||| cmd) ≠ cmd) (h7f : 0x7f &&& cmd = cmd) :
    scanFrom buf id cmd L n fuel 0 = none := by
  cases fuel with
  | zero => rfl
  | succ fuel =>
    rw [scanFrom]
    rw [if_neg (by simp [h0]), if_neg (by push_neg; intro _; omega),
      if_neg (by rw [show (0:Nat) + 1 = 1 from rfl, h1]
                 simp
                 intro hc
                 exact absurd hc.symm h80),
      if_pos (by rw [show (0:Nat) + 1 = 1 from rfl, h1, h7f])]

/-- Receiving the last missing bytes of a predicted response (the buffered
prefix plus the chunk forms the whole `frame`, which is headed by the
expected unit id and command and has exactly the expected length, the
latter between 6 and the cap) emits exactly that frame and empties the
buffer. -/
lemma onData_complete (s : PortState) (chunk frame : List Nat)
    (hfull : s.buffer ++ chunk = frame)
    (hL6 : 6 ≤ s.length) (hL256 : s.length ≤ (MAX_BUFFER_LENGTH : ℤ))
    (hflen : (frame.length : ℤ) = s.length)
    (h0 : frame[0]? = some s.id) (h1 : frame[1]? = some s.cmd) :
    onData s chunk =
      ({ s with buffer := [] },
       (if s.debug then [Event.debugRec "recive" frame] else []) ++ [Event.data frame]) := by
  have hlen6 : 6 ≤ frame.length := by omega
  unfold onData
  dsimp only
  rw [hfull]
  rw [if_neg (by push_neg; exact ⟨by omega, by rw [EXCEPTION_LENGTH]; omega⟩)]
  have hprune : pruneBuffer frame = frame := by
    rw [pruneBuffer, if_neg (by rw [MAX_BUFFER_LENGTH] at hL256 ⊢; omega)]
  rw [hprune]
  have hfuel : frame.length - EXCEPTION_LENGTH + 1 = (frame.length - EXCEPTION_LENGTH) + 1 := rfl
  rw [hfuel, scanFrom]
  rw [if_neg (by simp [h0]),
    if_pos (by exact ⟨by rw [show (0:Nat) + 1 = 1 from rfl]; exact h1, by omega⟩)]
  unfold emitData
  dsimp only
  have htake : (frame.drop 0).take s.length.toNat = frame := by
    rw [List.drop_zero]
    have : s.length.toNat = frame.length := by omega
    rw [this, List.take_length]
  have hdrop : frame.drop ((((0 : Nat) : ℤ)) + s.length).toNat = [] := by
    have : ((((0 : Nat) : ℤ)) + s.length).toNat = frame.length := by push_cast; omega
    rw [this, List.drop_length]
  rw [htake, hdrop]

/-- Receiving a chunk that still leaves the predicted response incomplete
(the buffer plus the chunk is a proper prefix of the frame) emits nothing
and just retains the grown buffer, thanks to the partial-frame guard. -/
lemma onData_incomplete (s : PortState) (chunk rest2 frame : List Nat)
    (hsplit : (s.buffer ++ chunk) ++ rest2 = frame)
    (hne : rest2 ≠ [])
    (hL6 : 6 ≤ s.length) (hL256 : s.length ≤ (MAX_BUFFER_LENGTH : ℤ))
    (hflen : (frame.length : ℤ) = s.length)
    (h0 : frame[0]? = some s.id) (h1 : frame[1]? = some s.cmd)
    (h80 : (0x80 ||| s.cmd) ≠ s.cmd) (h7f : 0x7f &&& s.cmd = s.cmd) :
    onData s chunk = ({ s with buffer := s.buffer ++ chunk }, []) := by
  have hlt : (s.buffer ++ chunk).length < frame.length := by
    have hlen := congrArg List.length hsplit
    simp only [List.length_append] at hlen ⊢
    have : 0 < rest2.length := List.length_pos.mpr hne
    omega
  unfold onData
  dsimp only
  by_cases hsmall : (s.buffer ++ chunk).length < EXCEPTION_LENGTH
  · rw [if_pos (Or.inr hsmall)]
  · rw [if_neg (by push_neg; exact ⟨by omega, by omega⟩)]
    have hcap : (s.buffer ++ chunk).length ≤ MAX_BUFFER_LENGTH := by
      rw [MAX_BUFFER_LENGTH] at hL256 ⊢; omega
    have hprune : pruneBuffer (s.buffer ++ chunk) = s.buffer ++ chunk := by
      rw [pruneBuffer, if_neg (by omega)]
    rw [hprune]
    rw [EXCEPTION_LENGTH] at hsmall
    have hb0 : (s.buffer ++ chunk)[0]? = some s.id := by
      rw [← hsplit, List.getElem?_append_left (by omega)] at h0
      exact h0
    have hb1 : (s.buffer ++ chunk)[1]? = some s.cmd := by
      rw [← hsplit, List.getElem?_append_left (by omega)] at h1
      exact h1
    rw [scanFrom_break _ _ _ _ _ _ hb0 hb1 (by omega) h80 h7f]

/-- Delivering the missing suffix of a predicted response one byte at a
time (buffer already holding the prefix `p`) accumulates silently until
the last byte, which triggers the emission of the whole frame. -/
lemma feedChunks_bytes (frame : List Nat) (rest : List Nat) (p : List Nat) (s : PortState)
    (hbuf : s.buffer = p) (hsplit : p ++ rest = frame)
    (hL6 : 6 ≤ s.length) (hL256 : s.length ≤ (MAX_BUFFER_LENGTH : ℤ))
    (hflen : (frame.length : ℤ) = s.length)
    (h0 : frame[0]? = some s.id) (h1 : frame[1]? = some s.cmd)
    (h80 : (0x80 ||| s.cmd) ≠ s.cmd) (h7f : 0x7f &&& s.cmd = s.cmd)
    (hne : rest ≠ []) :
    feedChunks s (rest.map fun b => [b]) =
      ({ s with buffer := [] },
       (if s.debug then [Event.debugRec "recive" frame] else []) ++ [Event.data frame]) := by
  induction rest generalizing p s with
  | nil => exact absurd rfl hne
  | cons b rest' ih =>
    by_cases hr : rest' = []
    · subst hr
      have hcomp := onData_complete s [b] frame (by rw [hbuf]; exact hsplit) hL6 hL256
        hflen h0 h1
      simp [feedChunks, hcomp]
    · have hsplit' : (p ++ [b]) ++ rest' = frame := by
        rw [List.append_assoc]; exact hsplit
      have hstep := onData_incomplete s [b] rest' frame (by rw [hbuf]; exact hsplit') hr
        hL6 hL256 hflen h0 h1 h80 h7f
      have hih := ih (p ++ [b]) { s with buffer := s.buffer ++ [b] }
        (by rw [hbuf]) hsplit' hL6 hL256 hflen h0 h1 h80 h7f hr
      simp only [List.map_cons, feedChunks, hstep, hih, List.nil_append]

/-- Helper: all receive processing is disabled while `_length < 6`, so an
arbitrary chunk sequence produces no events at all. -/
lemma feedChunks_disabled (s : PortState) (chunks : List (List Nat)) (h : s.length < 6) :
    (feedChunks s chunks).2 = [] := by
  induction chunks generalizing s with
  | nil => rfl
  | cons c rest ih =>
    simp only [feedChunks]
    rw [onData_disabled s c h]
    dsimp only
    rw [ih { s with buffer := s.buffer ++ c } h]
    rfl

/-- Helper: a read-coils request for quantity 0 produces the expected
length 5 (`parseInt(0.875)` evaluates to 0). -/
lemma write_q0_len : (write initialState [1, 1, 0, 0, 0, 0]).1.length = 5 := by
  have h : (write initialState [1, 1, 0, 0, 0, 0]).1.length
      = computeLength 1 [1, 1, 0, 0, 0, 0] := rfl
  rw [h, computeLength_one_two 1 _ (Or.inl rfl)]
  decide

/-- C7: a write of fewer than 6 bytes returns without handing anything to
the transport and without touching the expectation state (`_id`, `_cmd`,
`_length` keep their previous values), and raises no error. -/
theorem C7_short_write_noop (s : PortState) (data : List Nat) (h : data.length < 6) :
    write s data = (s, []) := by
  rw [write, if_pos h]

theorem C7_short_write_noop_witness : write initialState [1, 2, 3] = (initialState, []) :=
  C7_short_write_noop initialState [1, 2, 3] (by decide)

/-- C3: for requests with command code 1 or 2, the stored expected length
is exactly `3 + ceil(q / 8) + 2` where `q` is the big-endian 16-bit
quantity at offset 4 — i.e. the source's `parseInt((q - 1) / 8 + 1)`
computes `ceil(q / 8)` for every quantity, including `q = 0`. -/
theorem C3_bit_read_expected_length (s : PortState) (data : List Nat)
    (h6 : 6 ≤ data.length) (hc : data.getD 1 0 = 1 ∨ data.getD 1 0 = 2) :
    (write s data).1.length = 3 + ⌈((readUInt16BE data 4 : ℚ)) / 8⌉ + 2 := by
  rw [write_ok s data (by omega)]
  dsimp only
  rw [computeLength_one_two _ _ hc, ceil_div8]
  omega

theorem C3_bit_read_expected_length_witness :
    (write initialState [1, 1, 0, 0, 1, 0]).1.length
      = 3 + ⌈((readUInt16BE [1, 1, 0, 0, 1, 0] 4 : ℚ)) / 8⌉ + 2 :=
  C3_bit_read_expected_length initialState [1, 1, 0, 0, 1, 0] (by decide) (Or.inl (by decide))

/-- C2 counterexample: the recognized command code 1 with quantity 0
yields `_length = 5`, which is neither 0 nor at least 6 — refuting the
claim that every recognized command gives an expected length of at least
6 even for quantity 0. -/
theorem C2_expected_length_cex :
    (write initialState [1, 1, 0, 0, 0, 0]).1.length = 5 ∧
      ¬ ((write initialState [1, 1, 0, 0, 0, 0]).1.length = 0 ∨
          6 ≤ (write initialState [1, 1, 0, 0, 0, 0]).1.length) := by
  refine ⟨write_q0_len, ?_⟩
  rw [write_q0_len]
  decide

/-- C2 amended: after a write of at least 6 bytes, `_length` is 0
(unrecognized command), or at least 6, except that command codes 1–4 with
quantity 0 store the value 5. -/
theorem C2_expected_length_inv (s : PortState) (data : List Nat) (h : 6 ≤ data.length) :
    (write s data).1.length = 0 ∨ 6 ≤ (write s data).1.length ∨
      ((data.getD 1 0 = 1 ∨ data.getD 1 0 = 2 ∨ data.getD 1 0 = 3 ∨ data.getD 1 0 = 4) ∧
        readUInt16BE data 4 = 0 ∧ (write s data).1.length = 5) := by
  rw [write_ok s data (by omega)]
  dsimp only
  by_cases h12 : data.getD 1 0 = 1 ∨ data.getD 1 0 = 2
  · rw [computeLength_one_two _ _ h12]
    by_cases hq : readUInt16BE data 4 = 0
    · refine Or.inr (Or.inr ⟨by tauto, hq, ?_⟩)
      rw [hq]
      decide
    · refine Or.inr (Or.inl ?_)
      have h1q : 1 ≤ readUInt16BE data 4 := by omega
      have h8 : 1 ≤ (readUInt16BE data 4 + 7) / 8 := by omega
      omega
  · rw [computeLength, if_neg h12]
    split
    · by_cases hq : readUInt16BE data 4 = 0
      · refine Or.inr (Or.inr ⟨by tauto, hq, ?_⟩)
        rw [hq]
        decide
      · refine Or.inr (Or.inl ?_)
        have h1q : 1 ≤ readUInt16BE data 4 := by omega
        omega
    · split
      · exact Or.inr (Or.inl (by norm_num))
      · exact Or.inl rfl

theorem C2_expected_length_inv_witness :
    (write initialState [1, 5, 0, 1, 255, 0]).1.length = 0 ∨
      6 ≤ (write initialState [1, 5, 0, 1, 255, 0]).1.length ∨
      ((([1, 5, 0, 1, 255, 0] : List Nat).getD 1 0 = 1 ∨
          ([1, 5, 0, 1, 255, 0] : List Nat).getD 1 0 = 2 ∨
          ([1, 5, 0, 1, 255, 0] : List Nat).getD 1 0 = 3 ∨
          ([1, 5, 0, 1, 255, 0] : List Nat).getD 1 0 = 4) ∧
        readUInt16BE [1, 5, 0, 1, 255, 0] 4 = 0 ∧
        (write initialState [1, 5, 0, 1, 255, 0]).1.length = 5) :=
  C2_expected_length_inv initialState [1, 5, 0, 1, 255, 0] (by decide)

/-- C1 counterexample: with `_length = 0` (the constructor state) the
receive handler returns before the overflow pruning, so feeding a single
257-byte chunk leaves a retained buffer strictly larger than
`MAX_BUFFER_LENGTH` — refuting the claim that the cap holds regardless of
the current expectation. -/
theorem C1_buffer_cap_cex :
    MAX_BUFFER_LENGTH < (onData initialState (List.replicate 257 0)).1.buffer.length := by
  rw [onData_disabled initialState _ (by decide)]
  show MAX_BUFFER_LENGTH < (initialState.buffer ++ List.replicate 257 0).length
  rw [List.length_append, List.length_replicate, MAX_BUFFER_LENGTH]
  decide

/-- C1 amended: whenever the current expectation is armed
(`_length ≥ 6`), processing any inbound chunk leaves the retained buffer
at no more than `MAX_BUFFER_LENGTH` bytes; with `_length < 6` the handler
returns before the pruning step and the buffer may exceed the cap. -/
theorem C1_buffer_capped (s : PortState) (chunk : List Nat) (h : 6 ≤ s.length) :
    (onData s chunk).1.buffer.length ≤ MAX_BUFFER_LENGTH := by
  unfold onData emitData
  dsimp only
  split
  · rename_i hcond
    rcases hcond with hc | hc
    · omega
    · dsimp only
      rw [EXCEPTION_LENGTH] at hc
      rw [MAX_BUFFER_LENGTH]
      omega
  · have hp : (pruneBuffer (s.buffer ++ chunk)).length ≤ MAX_BUFFER_LENGTH := by
      rw [pruneBuffer]
      split
      · rw [List.length_drop]
        omega
      · omega
    split
    · dsimp only
      rw [List.length_drop]
      omega
    · exact hp

theorem C1_buffer_capped_witness :
    (onData (write initialState [1, 3, 0, 0, 0, 2, 196, 11]).1
        (List.replicate 300 0)).1.buffer.length ≤ MAX_BUFFER_LENGTH :=
  C1_buffer_capped (write initialState [1, 3, 0, 0, 0, 2, 196, 11]).1
    (List.replicate 300 0) (by decide)

/-- C4: after sending a read-holding-registers request to unit 1 (so the
expectation is unitId 1, command 3, expectedLength 9), a single 5-byte
chunk `[0x01, 0x83, 0x02, CRC_LO, CRC_HI]` delivered into an empty buffer
raises exactly one `data` event carrying exactly those 5 bytes (the
fixed-length exception frame) and leaves the buffer empty, for every pair
of trailing CRC bytes. -/
theorem C4_exception_scenario (c1 c2 : Nat) :
    (onData (write initialState [1, 3, 0, 0, 0, 2, 196, 11]).1 [1, 131, 2, c1, c2]).2
        = [Event.data [1, 131, 2, c1, c2]] ∧
      (onData (write initialState [1, 3, 0, 0, 0, 2, 196, 11]).1 [1, 131, 2, c1, c2]).1.buffer
        = [] :=
  ⟨rfl, rfl⟩

theorem C4_exception_scenario_witness :
    (onData (write initialState [1, 3, 0, 0, 0, 2, 196, 11]).1 [1, 131, 2, 193, 113]).2
        = [Event.data [1, 131, 2, 193, 113]] ∧
      (onData (write initialState [1, 3, 0, 0, 0, 2, 196, 11]).1
          [1, 131, 2, 193, 113]).1.buffer = [] :=
  C4_exception_scenario 193 113

/-- C5: a single receive event raises at most one `data` event, and when
the appended buffer already holds two complete matching frames only the
first is extracted, the second remaining in the buffer for the next
chunk — shown concretely for two back-to-back 9-byte responses delivered
in one chunk. -/
theorem C5_at_most_one_frame :
    (∀ (s : PortState) (chunk : List Nat),
        (onData s chunk).2.countP Event.isData ≤ 1) ∧
      (onData (write initialState [1, 3, 0, 0, 0, 2, 196, 11]).1
          ([1, 3, 4, 0, 1, 0, 2, 3, 4] ++ [1, 3, 4, 0, 1, 0, 2, 3, 4])).2
        = [Event.data [1, 3, 4, 0, 1, 0, 2, 3, 4]] ∧
      (onData (write initialState [1, 3, 0, 0, 0, 2, 196, 11]).1
          ([1, 3, 4, 0, 1, 0, 2, 3, 4] ++ [1, 3, 4, 0, 1, 0, 2, 3, 4])).1.buffer
        = [1, 3, 4, 0, 1, 0, 2, 3, 4] := by
  refine ⟨fun s chunk => ?_, by decide, by decide⟩
  rcases onData_events_shape s chunk with h | ⟨f, h⟩
  · rw [h]
    simp
  · rw [h]
    by_cases hd : s.debug
    · rw [if_pos hd]
      simp [List.countP_cons, Event.isData]
    · rw [if_neg hd]
      simp [List.countP_cons, Event.isData]

theorem C5_at_most_one_frame_witness :
    (onData initialState [1, 2, 3]).2.countP Event.isData ≤ 1 :=
  C5_at_most_one_frame.1 initialState [1, 2, 3]

/-- C8: a write of at least 6 bytes with an unrecognized command code
stores `_length = 0`, and from then on no sequence of inbound chunks can
raise a `data` event (matching is disabled until a later valid send). -/
theorem C8_unknown_cmd_disables (s : PortState) (data : List Nat)
    (h6 : 6 ≤ data.length) (hc : ¬ recognizedCmd (data.getD 1 0)) :
    (write s data).1.length = 0 ∧
      ∀ chunks, (feedChunks (write s data).1 chunks).2.countP Event.isData = 0 := by
  have hlen : (write s data).1.length = 0 := by
    rw [write_ok s data (by omega)]
    dsimp only
    rw [recognizedCmd] at hc
    push_neg at hc
    rw [computeLength, if_neg (by tauto), if_neg (by tauto), if_neg (by tauto)]
  refine ⟨hlen, fun chunks => ?_⟩
  rw [feedChunks_disabled _ _ (by omega)]
  rfl

theorem C8_unknown_cmd_disables_witness :
    (write initialState [1, 99, 0, 0, 0, 0]).1.length = 0 ∧
      (feedChunks (write initialState [1, 99, 0, 0, 0, 0]).1
          [[1, 99, 1, 2, 3], [5, 6, 7, 8, 9, 10]]).2.countP Event.isData = 0 :=
  ⟨(C8_unknown_cmd_disables initialState [1, 99, 0, 0, 0, 0] (by decide) (by decide)).1,
   (C8_unknown_cmd_disables initialState [1, 99, 0, 0, 0, 0] (by decide) (by decide)).2
     [[1, 99, 1, 2, 3], [5, 6, 7, 8, 9, 10]]⟩

/-- C9 counterexample: with diagnostics enabled, emitting a frame raises a
debug record whose action string is the source's literal `'recive'`, not
`"receive"` as the claim states: the record `{action: "receive", data:
frame}` is absent from the emitted events even though the `data` event is
present. -/
theorem C9_debug_action_cex :
    Event.data [1, 131, 2, 7, 7] ∈
        (onData (write { initialState with debug := true } [1, 3, 0, 0, 0, 2, 196, 11]).1
          [1, 131, 2, 7, 7]).2 ∧
      Event.debugRec "receive" [1, 131, 2, 7, 7] ∉
        (onData (write { initialState with debug := true } [1, 3, 0, 0, 0, 2, 196, 11]).1
          [1, 131, 2, 7, 7]).2 := by
  decide

/-- C9 amended: when diagnostics are enabled, every frame carried by a
`data` event is accompanied in the same receive event by a debug record
`{action: 'recive', data: frame}` (the action spelled as in the source)
carrying the same byte sequence. -/
theorem C9_debug_receive_record (s : PortState) (chunk : List Nat)
    (hdbg : s.debug = true) (frame : List Nat)
    (hmem : Event.data frame ∈ (onData s chunk).2) :
    Event.debugRec "recive" frame ∈ (onData s chunk).2 := by
  rcases onData_events_shape s chunk with h | ⟨f, h⟩
  · rw [h] at hmem
    simp at hmem
  · rw [h] at hmem ⊢
    simp only [hdbg, if_true] at hmem ⊢
    simp at hmem
    rw [hmem]
    simp

theorem C9_debug_receive_record_witness :
    Event.debugRec "recive" [1, 131, 2, 8, 8] ∈
      (onData (write { initialState with debug := true } [1, 3, 0, 0, 0, 2, 196, 11]).1
        [1, 131, 2, 8, 8]).2 :=
  C9_debug_receive_record _ _ (by decide) [1, 131, 2, 8, 8] (by decide)

/-- C10: for a receive event whose appended buffer stays within the
256-byte cap (so no pruning occurs), any emitted frame starts with the
expected unit id followed by either the expected command code — and then
has exactly the expected length — or by `0x80 OR commandCode` — and then
has exactly the 5-byte exception length. -/
theorem C10_emitted_frame_header (s : PortState) (chunk : List Nat)
    (hcap : (s.buffer ++ chunk).length ≤ MAX_BUFFER_LENGTH) :
    ∀ frame, Event.data frame ∈ (onData s chunk).2 →
      frame[0]? = some s.id ∧
        ((frame[1]? = some s.cmd ∧ (frame.length : ℤ) = s.length) ∨
         (frame[1]? = some (0x80 ||| s.cmd) ∧ frame.length = EXCEPTION_LENGTH)) := by
  intro frame hmem
  unfold onData at hmem
  dsimp only at hmem
  have hprune : pruneBuffer (s.buffer ++ chunk) = s.buffer ++ chunk := by
    rw [pruneBuffer, if_neg (by omega)]
  rw [hprune] at hmem
  split at hmem
  · simp at hmem
  · rename_i hgate
    push_neg at hgate
    obtain ⟨h6, h5⟩ := hgate
    split at hmem
    · rename_i start len heq
      obtain ⟨hstart, hrest⟩ := scanFrom_eq_some _ _ _ _ _ _ _ _ _ heq
      unfold emitData at hmem
      dsimp only at hmem
      have hframe : frame = ((s.buffer ++ chunk).drop start).take len.toNat := by
        rcases Bool.eq_false_or_eq_true s.debug with hb | hb <;> simp [hb] at hmem <;>
          exact hmem
      subst hframe
      rcases hrest with ⟨hb1, havail, hlen⟩ | ⟨hb1, havail, hlen⟩
      · subst hlen
        have havN : start + s.length.toNat ≤ (s.buffer ++ chunk).length := by omega
        refine ⟨?_, Or.inl ⟨?_, ?_⟩⟩
        · rw [List.getElem?_take_of_lt (by omega), List.getElem?_drop, Nat.add_zero]
          exact hstart
        · rw [List.getElem?_take_of_lt (by omega), List.getElem?_drop]
          exact hb1
        · rw [List.length_take, List.length_drop]
          omega
      · subst hlen
        rw [EXCEPTION_LENGTH] at havail
        have hE : (((EXCEPTION_LENGTH : ℕ) : ℤ)).toNat = 5 := rfl
        refine ⟨?_, Or.inr ⟨?_, ?_⟩⟩
        · rw [hE, List.getElem?_take_of_lt (by omega), List.getElem?_drop, Nat.add_zero]
          exact hstart
        · rw [hE, List.getElem?_take_of_lt (by omega), List.getElem?_drop]
          exact hb1
        · rw [hE, List.length_take, List.length_drop, EXCEPTION_LENGTH]
          omega
    · simp at hmem

theorem C10_emitted_frame_header_witness :
    ([1, 3, 4, 0, 1, 0, 2, 3, 4] : List Nat)[0]?
        = some (write initialState [1, 3, 0, 0, 0, 2, 196, 11]).1.id ∧
      ((([1, 3, 4, 0, 1, 0, 2, 3, 4] : List Nat)[1]?
            = some (write initialState [1, 3, 0, 0, 0, 2, 196, 11]).1.cmd ∧
          (([1, 3, 4, 0, 1, 0, 2, 3, 4] : List Nat).length : ℤ)
            = (write initialState [1, 3, 0, 0, 0, 2, 196, 11]).1.length) ∨
        (([1, 3, 4, 0, 1, 0, 2, 3, 4] : List Nat)[1]?
            = some (0x80 ||| (write initialState [1, 3, 0, 0, 0, 2, 196, 11]).1.cmd) ∧
          ([1, 3, 4, 0, 1, 0, 2, 3, 4] : List Nat).length = EXCEPTION_LENGTH)) :=
  C10_emitted_frame_header (write initialState [1, 3, 0, 0, 0, 2, 196, 11]).1
    [1, 3, 4, 0, 1, 0, 2, 3, 4] (by decide) [1, 3, 4, 0, 1, 0, 2, 3, 4] (by decide)

/-- C6 counterexample: for the recognized command 1 with quantity 0 the
predicted response length is 5, so `_length < 6` disables matching and
the "exact predicted response" (a 5-byte frame headed by the expected
unit id and command) produces zero `data` events — whether delivered as
one chunk or byte by byte — refuting the claim that exactly one `data`
event is raised for every recognized command. -/
theorem C6_single_byte_cex :
    (feedChunks (write initialState [1, 1, 0, 0, 0, 0]).1
        [[1, 1, 0, 0, 0]]).2.countP Event.isData = 0 ∧
      (feedChunks (write initialState [1, 1, 0, 0, 0, 0]).1
          (([1, 1, 0, 0, 0] : List Nat).map fun b => [b])).2.countP Event.isData = 0 := by
  constructor <;>
    · rw [feedChunks_disabled _ _ (by rw [write_q0_len]; decide)]
      rfl

/-- C6 amended: for every request with a recognized command code whose
predicted response length lies between 6 and the 256-byte cap, delivering
the exact predicted response (headed by the expected unit id and command
code) to the empty buffer one byte at a time produces the same final
state and the same event sequence as delivering it in a single chunk:
exactly one `data` event carrying the frame, with the buffer left empty. -/
theorem C6_single_byte_refinement (req frame : List Nat)
    (hreq : 6 ≤ req.length)
    (hcmd : recognizedCmd (req.getD 1 0))
    (hL6 : 6 ≤ (write initialState req).1.length)
    (hL256 : (write initialState req).1.length ≤ (MAX_BUFFER_LENGTH : ℤ))
    (hflen : (frame.length : ℤ) = (write initialState req).1.length)
    (h0 : frame[0]? = some (req.getD 0 0))
    (h1 : frame[1]? = some (req.getD 1 0)) :
    feedChunks (write initialState req).1 (frame.map fun b => [b])
        = feedChunks (write initialState req).1 [frame] ∧
      (feedChunks (write initialState req).1 [frame]).2 = [Event.data frame] ∧
      (feedChunks (write initialState req).1 [frame]).1.buffer = [] := by
  have hwf := write_ok initialState req (by omega)
  have hid : (write initialState req).1.id = req.getD 0 0 := by rw [hwf]
  have hcm : (write initialState req).1.cmd = req.getD 1 0 := by rw [hwf]
  have hbuf : (write initialState req).1.buffer = [] := by rw [write_buffer]; rfl
  have hdbg : (write initialState req).1.debug = false := by rw [write_debug]; rfl
  have h0' : frame[0]? = some (write initialState req).1.id := by rw [hid]; exact h0
  have h1' : frame[1]? = some (write initialState req).1.cmd := by rw [hcm]; exact h1
  have hrec : recognizedCmd (write initialState req).1.cmd := by rw [hcm]; exact hcmd
  have h80 : (0x80 ||| (write initialState req).1.cmd) ≠ (write initialState req).1.cmd := by
    rcases hrec with h | h | h | h | h | h | h | h <;> rw [h] <;> decide
  have h7f : 0x7f &&& (write initialState req).1.cmd = (write initialState req).1.cmd := by
    rcases hrec with h | h | h | h | h | h | h | h <;> rw [h] <;> decide
  have hfne : frame ≠ [] := by
    intro hh
    rw [hh] at hflen
    simp at hflen
    omega
  have hbytes := feedChunks_bytes frame frame [] (write initialState req).1 hbuf
    (by simp) hL6 hL256 hflen h0' h1' h80 h7f hfne
  have hsingle : feedChunks (write initialState req).1 [frame]
      = ({ (write initialState req).1 with buffer := [] },
         (if (write initialState req).1.debug then
            [Event.debugRec "recive" frame] else []) ++ [Event.data frame]) := by
    simp only [feedChunks]
    rw [onData_complete _ frame frame (by rw [hbuf]; simp) hL6 hL256 hflen h0' h1']
    simp
  refine ⟨?_, ?_, ?_⟩
  · rw [hbytes, hsingle]
  · rw [hsingle]
    dsimp only
    rw [hdbg]
    simp
  · rw [hsingle]

theorem C6_single_byte_refinement_witness :
    feedChunks (write initialState [1, 3, 0, 0, 0, 1, 0, 0]).1
        (([1, 3, 2, 0, 5, 77, 88] : List Nat).map fun b => [b])
        = feedChunks (write initialState [1, 3, 0, 0, 0, 1, 0, 0]).1 [[1, 3, 2, 0, 5, 77, 88]] ∧
      (feedChunks (write initialState [1, 3, 0, 0, 0, 1, 0, 0]).1
          [[1, 3, 2, 0, 5, 77, 88]]).2 = [Event.data [1, 3, 2, 0, 5, 77, 88]] ∧
      (feedChunks (write initialState [1, 3, 0, 0, 0, 1, 0, 0]).1
          [[1, 3, 2, 0, 5, 77, 88]]).1.buffer = [] :=
  C6_single_byte_refinement [1, 3, 0, 0, 0, 1, 0, 0] [1, 3, 2, 0, 5, 77, 88]
    (by decide) (by decide) (by decide) (by decide) (by decide) (by decide) (by decide)
